import Mathlib

/-!
Verification of the CoreSeq sample-sheet validator core.

The TypeScript source is shallowly embedded over `List Char` / `String`:
JavaScript string primitives (`split`, `trim`, `toLowerCase`, `includes`,
`replace` with the concrete regexes used by the source) are modelled by
executable Lean functions, and each source function of interest
(`reverseComplement`, `removeSpecialChars`, `replaceSpecialCharacters`,
`isDNASequence`, `parseIlluminaSampleSheet`, `validateSampleSheet`,
`validateSampleSheet2k`, the NextSeq-2000 column reconciler and the
row-padding serializer step) is translated definition by definition.
JavaScript `Record` / `Map` objects keyed by strings are modelled by
insertion-ordered association lists with update-in-place semantics.
-/

/-- Model of JavaScript `String.prototype.split` with a one-character
separator: splitting the character list at every occurrence of `sep`.
`"".split(sep)` gives `[""]`, and separators at the ends give empty pieces,
exactly as in JavaScript. -/
def splitOnChar (sep : Char) : List Char → List (List Char)
  | [] => [[]]
  | c :: rest =>
    if c = sep then [] :: splitOnChar sep rest
    else
      match splitOnChar sep rest with
      | [] => [[c]]
      | l :: ls => (c :: l) :: ls

/-- Whitespace recognised by the model of `String.prototype.trim`; the sample
sheets only ever contain spaces, tabs and line-ending characters. -/
def isSpaceChar (c : Char) : Bool :=
  c = ' ' || c = '\t' || c = '\r' || c = '\n'

/-- Model of JavaScript `String.prototype.trim` on character lists. -/
def trimChars (l : List Char) : List Char :=
  ((l.dropWhile isSpaceChar).reverse.dropWhile isSpaceChar).reverse

/-- ASCII lower-casing of one character, as `toLowerCase` acts on the ASCII
header names appearing in the sheets. -/
def charToLower (c : Char) : Char :=
  if 'A' ≤ c ∧ c ≤ 'Z' then Char.ofNat (c.toNat + 32) else c

/-- Model of `String.prototype.split` with a one-character separator. -/
def jsSplit (sep : Char) (s : String) : List String :=
  (splitOnChar sep s.data).map (fun l => ⟨l⟩)

/-- Model of `String.prototype.trim`. -/
def jsTrim (s : String) : String := ⟨trimChars s.data⟩

/-- Model of `String.prototype.toLowerCase` on ASCII data. -/
def jsToLower (s : String) : String := ⟨s.data.map charToLower⟩

/-- Does `pat` occur at the head of the list?  Helper for the model of
`String.prototype.includes`. -/
def listStartsWith : List Char → List Char → Bool
  | [], _ => true
  | _ :: _, [] => false
  | p :: ps, c :: cs => p = c && listStartsWith ps cs

/-- Does `pat` occur as a contiguous run anywhere in the list? -/
def listContainsSub (pat : List Char) : List Char → Bool
  | [] => listStartsWith pat []
  | c :: rest => listStartsWith pat (c :: rest) || listContainsSub pat rest

/-- Model of JavaScript `s.includes(sub)`. -/
def jsIncludes (s sub : String) : Bool := listContainsSub sub.data s.data

/-- Model of JavaScript `Array.prototype.join(sep)` on an array of strings
that contain no `undefined` entries. -/
def joinSep (sep : String) : List String → String
  | [] => ""
  | [a] => a
  | a :: b :: t => a ++ sep ++ joinSep sep (b :: t)

/-- Model of JavaScript `Array.prototype.join(',')`. -/
def joinComma : List String → String
  | [] => ""
  | [a] => a
  | a :: b :: t => a ++ "," ++ joinComma (b :: t)

/-- Lookup in an insertion-ordered association list, the model of reading a
JavaScript `Record<string, α>` / `Map<string, α>` entry. -/
def lookupS {α : Type} : List (String × α) → String → Option α
  | [], _ => none
  | (k', v) :: rest, k => if k' = k then some v else lookupS rest k

/-- Write to an insertion-ordered association list: update the value in place
when the key is present, append a new entry otherwise.  This is the model of
`record[key] = value` and `map.set(key, value)`. -/
def setEntryS {α : Type} : List (String × α) → String → α → List (String × α)
  | [], k, v => [(k, v)]
  | (k', v') :: rest, k, v =>
    if k' = k then (k, v) :: rest else (k', v') :: setEntryS rest k v

/-! ### SequenceCodec (`src/lib/utils.ts`) -/

/-- The fixed `DNA_COMPLEMENT` table of `utils.ts`: `DNA_COMPLEMENT[base] || base`. -/
def complementChar (c : Char) : Char :=
  if c = 'A' then 'T'
  else if c = 'T' then 'A'
  else if c = 'C' then 'G'
  else if c = 'G' then 'C'
  else c

/-- Character-list body of `reverseComplement`: reverse, then map each
character through the complement table, characters outside the table passing
through unchanged. -/
def rcList (l : List Char) : List Char := l.reverse.map complementChar

/-- `reverseComplement(sequence)` from `utils.ts`:
`sequence.split('').reverse().map(base => DNA_COMPLEMENT[base] || base).join('')`. -/
def reverseComplement (s : String) : String := ⟨rcList s.data⟩

/-- One character admitted by the regex class `[ATCG]`. -/
def isDNABase (c : Char) : Bool :=
  c = 'A' || c = 'T' || c = 'C' || c = 'G'

/-- `isDNASequence(sequence)` from `utils.ts`: `/^[ATCG]+$/.test(sequence)`.
The `+` quantifier demands at least one character. -/
def isDNASequence (s : String) : Bool :=
  !s.data.isEmpty && s.data.all isDNABase

/-! ### TextSanitizer (`src/lib/utils.ts`) -/

/-- One character admitted by the regex class `[a-zA-Z0-9\-_]` of
`removeSpecialChars`. -/
def isAllowedChar (c : Char) : Bool :=
  ('a' ≤ c && c ≤ 'z') || ('A' ≤ c && c ≤ 'Z') || ('0' ≤ c && c ≤ '9') ||
    c = '-' || c = '_'

/-- First step of `removeSpecialChars`:
`text.replace(/[^a-zA-Z0-9\-_]/g, replaceChar)`, a per-character global
replacement. -/
def replaceDisallowed (r : Char) (l : List Char) : List Char :=
  l.map (fun c => if isAllowedChar c then c else r)

/-- Global replacement of every maximal run of the character `r` by a single
`r`, the model of `result.replace(new RegExp(r + '+', 'g'), r)`. -/
def collapseChar (r : Char) : List Char → List Char
  | [] => []
  | a :: rest =>
    match rest with
    | [] => [a]
    | b :: _ => if a = r && b = r then collapseChar r rest
                else a :: collapseChar r rest

/-- `removeSpecialChars(text, replaceChar, collapseRepeat)` from `utils.ts`;
the source's default arguments are `replaceChar = '-'`,
`collapseRepeat = true`. -/
def removeSpecialChars (text : String) (replaceChar : Char)
    (collapseRepeat : Bool) : String :=
  let result := replaceDisallowed replaceChar text.data
  ⟨if collapseRepeat then collapseChar replaceChar result else result⟩

/-- One character admitted by `[A-Za-z0-9]`, the complement of the regex
class `[\W_]` used by `replaceSpecialCharacters` (JavaScript `\W` is
`[^A-Za-z0-9_]`, so `[\W_]` is everything non-alphanumeric). -/
def isAlnumChar (c : Char) : Bool :=
  ('a' ≤ c && c ≤ 'z') || ('A' ≤ c && c ≤ 'Z') || ('0' ≤ c && c ≤ '9')

/-- State-machine model of `text.replace(/[\W_]+/g, '-')`: the flag records
whether the previous character belonged to a non-alphanumeric run whose `-`
has already been emitted. -/
def replaceRunsAux : Bool → List Char → List Char
  | _, [] => []
  | inRun, c :: rest =>
    if isAlnumChar c then c :: replaceRunsAux false rest
    else if inRun then replaceRunsAux true rest
    else '-' :: replaceRunsAux true rest

/-- Replacement of every maximal run of non-alphanumeric characters by a
single `-`. -/
def replaceRuns (l : List Char) : List Char := replaceRunsAux false l

/-- `replaceSpecialCharacters(text)` from `utils.ts`: the `!text` early
return, then the three passes — runs of `[\W_]` to `-`, collapse of `-`
runs, collapse of `_` runs. -/
def replaceSpecialCharacters (text : String) : String :=
  if text = "" then text
  else ⟨collapseChar '_' (collapseChar '-' (replaceRuns text.data))⟩

/-- Comparison variant of `replaceSpecialCharacters` with the final
underscore-collapse pass omitted, used to settle whether that pass can ever
change the output. -/
def replaceSpecialCharsNoUnderscorePass (text : String) : String :=
  if text = "" then text
  else ⟨collapseChar '-' (replaceRuns text.data)⟩

/-! ### SheetParser, NextSeq-500 variant (`src/routes/nextseq500/+page.svelte`) -/

/-- Line splitting of `parseIlluminaSampleSheet`:
`content.replace(/\r\n|\r|\n/g, '\n')` followed by `split('\n')` — every
line-ending convention becomes a separator. -/
def splitLinesAll : List Char → List (List Char)
  | [] => [[]]
  | '\r' :: '\n' :: rest => [] :: splitLinesAll rest
  | '\r' :: rest => [] :: splitLinesAll rest
  | '\n' :: rest => [] :: splitLinesAll rest
  | c :: rest =>
    match splitLinesAll rest with
    | [] => [[c]]
    | l :: ls => (c :: l) :: ls

/-- The normalized line list of the NextSeq-500 parser. -/
def linesOf500 (content : String) : List String :=
  (splitLinesAll content.data).map (fun l => ⟨l⟩)

/-- The per-line cleanup of the NextSeq-500 parser:
`line.trim().replace(/,+$/, '')` — trim, then strip trailing commas. -/
def cleanLine500 (line : String) : String :=
  ⟨((trimChars line.data).reverse.dropWhile (· = ',')).reverse⟩

/-- Structural error states of `parseIlluminaSampleSheet`. -/
inductive ParseError where
  | noDataSection
  | emptyDataSection
deriving DecidableEq

/-- The line scan of `parseIlluminaSampleSheet`: state is the
`dataSection` flag, the collected header lines (pushed verbatim) and the
collected cleaned non-empty data lines; a repeated `[Data]` marker resets
the data lines. -/
def scan500 : List String → Bool → List String → List String →
    Bool × List String × List String
  | [], ds, hs, dls => (ds, hs, dls)
  | line :: rest, ds, hs, dls =>
    let clean := cleanLine500 line
    if clean = "[Data]" then scan500 rest true hs []
    else if !ds then scan500 rest ds (hs ++ [line]) dls
    else if clean ≠ "" then scan500 rest ds hs (dls ++ [clean])
    else scan500 rest ds hs dls

/-- `parseIlluminaSampleSheet(content)` from the NextSeq-500 page: scan the
normalized lines, fail when no `[Data]` marker was seen, fail when fewer
than two cleaned non-empty lines were collected after it, and otherwise
return the header section and the data lines. -/
def parseIlluminaSampleSheet (content : String) :
    Except ParseError (List String × List String) :=
  let scanned := scan500 (linesOf500 content) false [] []
  if !scanned.1 then .error .noDataSection
  else if scanned.2.2.length < 2 then .error .emptyDataSection
  else .ok (scanned.2.1, scanned.2.2)

/-- Marker detection stated independently of the scan: some line of the
input cleans to `[Data]`. -/
def markerFound500 (lines : List String) : Bool :=
  lines.any (fun l => cleanLine500 l = "[Data]")

/-- The lines strictly after the last `[Data]` marker line (the suffix the
scan collects data from, since each marker resets the data lines). -/
def afterLastMarker500 : List String → List String
  | [] => []
  | l :: rest =>
    if markerFound500 rest then afterLastMarker500 rest
    else if cleanLine500 l = "[Data]" then rest
    else afterLastMarker500 rest

/-- The cleaned non-empty lines of a line list, the shape in which the scan
stores data lines. -/
def dataLinesIn (lines : List String) : List String :=
  (lines.map cleanLine500).filter (fun l => l ≠ "")

/-! ### SheetParser, NextSeq-2000 full-structure variant
(`processContent`, NextSeq-2000 page) -/

/-- Line splitting used by both NextSeq-2000 pages: `split(/\r?\n/)`. -/
def splitLinesRN : List Char → List (List Char)
  | [] => [[]]
  | '\r' :: '\n' :: rest => [] :: splitLinesRN rest
  | '\n' :: rest => [] :: splitLinesRN rest
  | c :: rest =>
    match splitLinesRN rest with
    | [] => [[c]]
    | l :: ls => (c :: l) :: ls

/-- The pre-filtered line list of the NextSeq-2000 pages:
`content.split(/\r?\n/).filter(line => line.trim())`. -/
def linesOf2k (content : String) : List String :=
  ((splitLinesRN content.data).map (fun l => (⟨l⟩ : String))).filter
    (fun l => jsTrim l ≠ "")

/-- The full-structure scan of the NextSeq-2000 `processContent`: the
`[BCLConvert_Data]` marker line is pushed onto the header section before
the `dataSection` flag flips, non-marker lines go to the header section
before the marker and to the data lines (when non-blank) after it. -/
def scan2k : List String → Bool → List String → List String →
    List String × List String
  | [], _, hs, dls => (hs, dls)
  | line :: rest, ds, hs, dls =>
    if jsTrim line = "[BCLConvert_Data]" then scan2k rest true (hs ++ [line]) dls
    else if !ds then scan2k rest ds (hs ++ [line]) dls
    else if jsTrim line ≠ "" then scan2k rest ds hs (dls ++ [line])
    else scan2k rest ds hs dls

/-- The header-section / data-lines split of the full-structure branch of the
NextSeq-2000 `processContent`. -/
def processFullStructure2k (lines : List String) : List String × List String :=
  scan2k lines false [] []

/-! ### SheetSerializer (`downloadValidated`, both Illumina pages) -/

/-- The padding loop of `downloadValidated`:
`while (paddedRow.length < downloadHeaders.length) paddedRow.push('')`. -/
def padRow (row : List String) (n : Nat) : List String :=
  if row.length < n then padRow (row ++ [""]) n else row
termination_by n - row.length
decreasing_by simp; omega

/-- The serialized body of `downloadValidated`: the (possibly reduced) header
line followed by one comma-joined padded line per row. -/
def serializeRows (headers : List String) (rows : List (List String)) :
    List String :=
  joinComma headers :: rows.map (fun row => joinComma (padRow row headers.length))

/-! ### DuplicateIndexDetector, NextSeq-2000 validator
(`validateSampleSheet2k`, `src/lib/utils.ts`) -/

/-- Result record of `validateSampleSheet2k`. -/
structure ValidationResult2k where
  duplicatedIndexes : List (String × List String)
  isValid : Bool
deriving DecidableEq

/-- The cell access pattern `cells[headers.findIndex(...)] || ''` of
`validateSampleSheet2k`: an absent column (`findIndex` giving `-1`), a
missing cell and an empty cell all yield the empty string. -/
def cellAt (cells : List String) : Option Nat → String
  | none => ""
  | some i => cells.getD i ""

/-- The line loop of `validateSampleSheet2k`.  State: the `dataSection`
flag, the captured data headers, the `indexCombinations` map and the
`duplicatedIndexes` record; the returned value is the final
`duplicatedIndexes`. -/
def vss2kLoop : List String → Bool → List String →
    List (String × List String) → List (String × List String) →
    List (String × List String)
  | [], _, _, _, dup => dup
  | line :: rest, ds, headers, combos, dup =>
    let l := jsTrim line
    if l = "[BCLConvert_Data]" then vss2kLoop rest true headers combos dup
    else if !ds || l = "" then vss2kLoop rest ds headers combos dup
    else if headers.isEmpty then
      vss2kLoop rest ds ((jsSplit ',' l).map jsTrim) combos dup
    else
      let cells := (jsSplit ',' l).map jsTrim
      let sampleId := cellAt cells (headers.findIdx? (fun h => jsToLower h = "sample_id"))
      let index1 := cellAt cells (headers.findIdx? (fun h => jsToLower h = "index"))
      let index2 := cellAt cells (headers.findIdx? (fun h => jsToLower h = "index2"))
      if sampleId = "" || index1 = "" then vss2kLoop rest ds headers combos dup
      else
        let indexKey := index1 ++ "-" ++ index2
        match lookupS combos indexKey with
        | some samples =>
          let samples := samples ++ [sampleId]
          vss2kLoop rest ds headers (setEntryS combos indexKey samples)
            (setEntryS dup indexKey samples)
        | none =>
          vss2kLoop rest ds headers (setEntryS combos indexKey [sampleId]) dup

/-- `validateSampleSheet2k(content)` from `utils.ts`: split on `/\r?\n/`,
run the line loop, and report the duplicate map together with the
`isValid` flag (`Object.keys(duplicatedIndexes).length === 0`). -/
def validateSampleSheet2k (content : String) : ValidationResult2k :=
  let lines := (splitLinesRN content.data).map (fun l => (⟨l⟩ : String))
  let dup := vss2kLoop lines false [] [] []
  { duplicatedIndexes := dup, isValid := dup.isEmpty }

/-! ### ColumnReconciler, NextSeq-2000 simple-CSV branch
(`processContent`, `src/routes/nextseq2k/+page.svelte`) -/

/-- The fixed required-column list of the NextSeq-2000 `processContent`
(held in lowercase by the source, matched case-insensitively). -/
def requiredColumns2k : List String :=
  ["sample_id", "index2", "index", "sample_project"]

/-- The batched missing-column computation of `processContent`:
`requiredColumns.filter(required => !inputHeadersLower.includes(required))`. -/
def missingColumns2k (inputHeaders : List String) : List String :=
  requiredColumns2k.filter
    (fun required => !((inputHeaders.map jsToLower).contains required))

/-- The message `Missing required columns: ...` thrown by `processContent`:
all missing names joined by `', '` in required-column order. -/
def missingColumnsMessage (missing : List String) : String :=
  "Missing required columns: " ++ joinSep ", " missing

/-- The per-row reordering of the simple-CSV branch: a fresh row of
`requiredColumns.length` empty cells, each mapped input cell written to its
required position when the source cell is non-empty (`if (cells[oldIndex])`). -/
def reorderCells2k (headerMap : List (Nat × Nat)) (cells : List String)
    (n : Nat) : List String :=
  headerMap.foldl
    (fun acc p =>
      if cells.getD p.1 "" ≠ "" then acc.set p.2 (cells.getD p.1 "") else acc)
    (List.replicate n "")

/-- The simple-CSV (no `[Header]` marker) branch of the NextSeq-2000
`processContent`, acting on the pre-filtered non-blank line list: reconcile
the first line against the required columns, failing with one combined
message naming every missing required column, then reorder every data row
into required-column order, preserving the original casing of matched
headers. -/
def reconcileSimple2k (lines : List String) :
    Except String (List String × List (List String)) :=
  match lines with
  | [] => .error "File appears to be empty"
  | firstLine :: restLines =>
    let inputHeaders := (jsSplit ',' firstLine).map jsTrim
    if inputHeaders.isEmpty then .error "No headers found in the file"
    else
      let inputHeadersLower := inputHeaders.map jsToLower
      let missing := missingColumns2k inputHeaders
      if !missing.isEmpty then .error (missingColumnsMessage missing)
      else
        let headerMap := requiredColumns2k.foldl
          (fun (acc : List (Nat × Nat) × Nat) required =>
            match inputHeadersLower.findIdx? (fun h => h = required) with
            | some inputIndex => (acc.1 ++ [(inputIndex, acc.2)], acc.2 + 1)
            | none => (acc.1, acc.2 + 1))
          ([], 0)
        let headers := requiredColumns2k.map
          (fun required =>
            match inputHeadersLower.findIdx? (fun h => h = required) with
            | some i => inputHeaders.getD i ""
            | none => "")
        let rows := (restLines.filter (fun l => jsTrim l ≠ "")).map
          (fun line =>
            reorderCells2k headerMap.1 ((jsSplit ',' line).map jsTrim)
              requiredColumns2k.length)
        .ok (headers, rows)

/-! ### NextSeq-500 validator (`validateSampleSheet`, `src/lib/utils.ts`) -/

/-- The `expectedHeader` array of `validateSampleSheet`. -/
def expectedHeaderList : List String :=
  ["Sample_ID", "Description", "I7_Index_ID", "index", "I5_Index_ID",
   "index2", "Sample_Project"]

/-- The `nextera_xt_v2` adapter table of `utils.ts`. -/
def adapterLookup (k : String) : Option String :=
  if k = "N701" then some "TAAGGCGA"
  else if k = "S522" then some "TTATGCGA"
  else none

/-- JavaScript `a || b` where `a` is a `Map.get` result: an absent key and
an empty string both fall through to `b`. -/
def jsOr (a : Option String) (b : String) : String :=
  match a with
  | some v => if v = "" then b else v
  | none => b

/-- Model of `s.replace('A-', '')` with a string pattern: only the first
occurrence of `A-` is removed. -/
def replaceFirstADash : List Char → List Char
  | [] => []
  | 'A' :: '-' :: rest => rest
  | c :: rest => c :: replaceFirstADash rest

/-- String wrapper for `replaceFirstADash`. -/
def replaceFirstADashStr (s : String) : String := ⟨replaceFirstADash s.data⟩

/-- The output line `validateSampleSheet` pushes for a first-occurrence data
row: sanitized sample id, description defaulting to the sample id, the two
index ids with their first `A-` removed, the adapter-or-index sequences with
`index2` reverse-complemented, all comma-joined. -/
def renderSample (row : List String) : String :=
  let cleanSampleId := removeSpecialChars (row.getD 0 "") '-' true
  let description := row.getD 1 ""
  let cleanDescription :=
    if description = "" then cleanSampleId
    else removeSpecialChars description '-' true
  let cleanSampleProject := removeSpecialChars (row.getD 6 "") '-' true
  let cleanI7IndexId := replaceFirstADashStr (row.getD 2 "")
  let cleanI5IndexId := replaceFirstADashStr (row.getD 4 "")
  joinComma
    [cleanSampleId, cleanDescription, cleanI7IndexId,
     jsOr (adapterLookup cleanI7IndexId) (row.getD 3 ""), cleanI5IndexId,
     reverseComplement (jsOr (adapterLookup cleanI5IndexId) (row.getD 5 "")),
     cleanSampleProject]

/-- Loop state of `validateSampleSheet`: the `samples` output array, the
internal `duplicatedIndexes` record and the `foundHeader` flag. -/
structure VSState where
  samples : List String
  dup : List (String × String)
  foundHeader : Bool
deriving DecidableEq

/-- One iteration of the `validateSampleSheet` line loop.  Before the header
is found, lines pass through into `samples`, a line whose first cell
contains `sample` must match `expectedHeader` cell by cell or the loop
throws.  After the header, a data row with fewer than seven cells makes the
source crash while sanitizing `sampleProject` (modelled as an error); a row
whose `index+index2` key was already seen only appends its sanitized id to
the record entry, and a fresh key records a singleton entry and pushes the
rendered sample line. -/
def vssLine (st : VSState) (line : String) : Except String VSState :=
  if jsTrim line = "" then .ok st
  else
    let row := (jsSplit ',' line).map jsTrim
    if !st.foundHeader then
      if jsIncludes (jsToLower (row.getD 0 "")) "sample" then
        if expectedHeaderList.isPrefixOf row then
          .ok { st with foundHeader := true, samples := st.samples ++ [line] }
        else .error "Invalid column headers"
      else .ok { st with samples := st.samples ++ [line] }
    else if row.length < 7 then .error "TypeError"
    else
      let cleanSampleId := removeSpecialChars (row.getD 0 "") '-' true
      let pairIndex := row.getD 3 "" ++ "+" ++ row.getD 5 ""
      match lookupS st.dup pairIndex with
      | some v =>
        .ok { st with dup := setEntryS st.dup pairIndex (v ++ "," ++ cleanSampleId) }
      | none =>
        .ok { st with
              samples := st.samples ++ [renderSample row],
              dup := setEntryS st.dup pairIndex cleanSampleId }

/-- The full line loop of `validateSampleSheet`. -/
def vssLoop : List String → VSState → Except String VSState
  | [], st => .ok st
  | line :: rest, st =>
    match vssLine st line with
    | .error e => .error e
    | .ok st' => vssLoop rest st'

/-- Result record of `validateSampleSheet`. -/
structure ValidationResult where
  samples : List String
  duplicatedIndexes : List (String × String)
deriving DecidableEq

/-- `validateSampleSheet(content)` from `utils.ts` (with the default adapter
kit, which is present in `ADAPTER_LIST`): split on `'\n'`, run the line
loop from the empty state, and keep only the record entries whose value
contains a comma — the keys seen more than once. -/
def validateSampleSheet (content : String) : Except String ValidationResult :=
  match vssLoop ((splitOnChar '\n' content.data).map (fun l => (⟨l⟩ : String)))
      ⟨[], [], false⟩ with
  | .error e => .error e
  | .ok st =>
    .ok { samples := st.samples,
          duplicatedIndexes := st.dup.filter (fun p => jsIncludes p.2 ",") }

/-! ### Specification-side characterizations for the NextSeq-500 validator -/

/-- The composite key of a data row as `validateSampleSheet` builds it:
`index` cell, `+`, `index2` cell. -/
def rowKey (row : List String) : String :=
  row.getD 3 "" ++ "+" ++ row.getD 5 ""

/-- The split-and-trimmed non-blank data rows of a line list. -/
def dataRowsOf (ls : List String) : List (List String) :=
  (ls.filter (fun l => jsTrim l ≠ "")).map (fun l => (jsSplit ',' l).map jsTrim)

/-- Modelled from the spec: the rows that are the first occurrence of their
composite index key, given the keys already seen — the rows the claim says
are the only contributors to the `samples` output. -/
def specFirstOccurrences (seen : List String) :
    List (List String) → List (List String)
  | [] => []
  | row :: rest =>
    if rowKey row ∈ seen then specFirstOccurrences seen rest
    else row :: specFirstOccurrences (seen ++ [rowKey row]) rest

/-- The sanitized sample ids of the rows carrying a given composite key, in
row order. -/
def cleanIdsWithKey (k : String) (rows : List (List String)) : List String :=
  (rows.filter (fun r => rowKey r = k)).map
    (fun r => removeSpecialChars (r.getD 0 "") '-' true)

/-- Expected final record entry for a key: the previous entry (if any)
extended by the new ids, comma-joined; `none` when the key never appears. -/
def joinOpt (o : Option String) (ids : List String) : Option String :=
  match o, ids with
  | none, [] => none
  | none, ids => some (joinComma ids)
  | some v, ids => some (joinComma (v :: ids))

/-- Decidable well-formedness of a data-line list: every non-blank line
splits into at least seven cells, so the source reaches no `undefined`
access while processing it. -/
def rowsWellFormed (ls : List String) : Bool :=
  ls.all (fun l => jsTrim l = "" || decide (7 ≤ ((jsSplit ',' l).map jsTrim).length))

/-! ## Lemmas and theorems -/

theorem complementChar_involutive (c : Char) :
    complementChar (complementChar c) = c := by
  by_cases h1 : c = 'A'
  · subst h1; rfl
  by_cases h2 : c = 'T'
  · subst h2; rfl
  by_cases h3 : c = 'C'
  · subst h3; rfl
  by_cases h4 : c = 'G'
  · subst h4; rfl
  simp [complementChar, h1, h2, h3, h4]

theorem rcList_rcList (l : List Char) : rcList (rcList l) = l := by
  unfold rcList
  rw [List.map_reverse, List.map_map]
  have h : complementChar ∘ complementChar = id := funext complementChar_involutive
  rw [h, List.map_id, List.reverse_reverse]

/-- C4: `reverseComplement` is an involution — for every string, over the
`{A,C,G,T}` alphabet or mixed with arbitrary passthrough characters,
applying it twice returns the original string. -/
theorem reverseComplement_involution (s : String) :
    reverseComplement (reverseComplement s) = s := by
  cases s with
  | mk data => simp [reverseComplement, rcList_rcList]

/-- C9 counterexample: every character of the empty string lies in
`{A,C,G,T}` vacuously, yet `isDNASequence` returns `false` on it, because
the regex `/^[ATCG]+$/` demands at least one character. -/
theorem isDNASequence_empty_counterexample :
    ("" : String).data.all isDNABase = true ∧ isDNASequence "" = false := by
  decide

/-- C9 (amended): `isDNASequence` returns `true` exactly when the string is
non-empty and every one of its characters is in `{A,C,G,T}`; in particular
it returns `false` on the empty string. -/
theorem isDNASequence_iff (s : String) :
    isDNASequence s = true ↔
      s.data ≠ [] ∧ ∀ c ∈ s.data, isDNABase c = true := by
  simp [isDNASequence, List.isEmpty_iff, List.all_eq_true]

theorem padRow_eq (row : List String) (n : Nat) :
    padRow row n = row ++ List.replicate (n - row.length) "" := by
  induction row, n using padRow.induct with
  | case1 row n h ih =>
    rw [padRow.eq_def, if_pos h, ih, List.append_assoc]
    congr 1
    have hlen : (row ++ [""]).length = row.length + 1 := by simp
    rw [hlen]
    have hk : n - row.length = (n - (row.length + 1)) + 1 := by omega
    rw [hk, List.replicate_succ]
    rfl
  | case2 row n h =>
    rw [padRow.eq_def, if_neg h]
    have hk : n - row.length = 0 := by omega
    rw [hk]
    simp

/-- C8: the serializer padding step emits, for every row,
`max(row length, header count)` cells — a short row is right-padded with
empty-string cells up to the header count and a long row is kept whole,
never truncated. -/
theorem padRow_pads_never_truncates (row : List String) (n : Nat) :
    padRow row n = row ++ List.replicate (n - row.length) "" ∧
      (padRow row n).length = max row.length n := by
  refine ⟨padRow_eq row n, ?_⟩
  rw [padRow_eq]
  simp
  omega

theorem mem_of_mem_collapseChar (r : Char) :
    ∀ l : List Char, ∀ c ∈ collapseChar r l, c ∈ l := by
  intro l
  induction l with
  | nil => intro c hc; simp [collapseChar] at hc
  | cons a rest ih =>
    intro c hc
    cases rest with
    | nil => simpa [collapseChar] using hc
    | cons b t =>
      by_cases hab : a = r && b = r
      · rw [show collapseChar r (a :: b :: t) = collapseChar r (b :: t) from by
          simp [collapseChar, hab]] at hc
        exact List.mem_cons_of_mem a (ih c hc)
      · rw [show collapseChar r (a :: b :: t) = a :: collapseChar r (b :: t) from by
          simp [collapseChar]; intro h1 h2; exact absurd (by simp [h1, h2]) hab] at hc
        rcases List.mem_cons.mp hc with h | h
        · simp [h]
        · exact List.mem_cons_of_mem a (ih c h)

theorem collapseChar_head (r : Char) :
    ∀ (l : List Char) (a : Char), (collapseChar r (a :: l)).head? = some a := by
  intro l
  induction l with
  | nil => intro a; simp [collapseChar]
  | cons b t ih =>
    intro a
    by_cases hab : a = r && b = r
    · rw [show collapseChar r (a :: b :: t) = collapseChar r (b :: t) from by
        simp [collapseChar, hab]]
      rw [ih b]
      have h2 : a = r ∧ b = r := by simpa using hab
      rw [h2.1, h2.2]
    · rw [show collapseChar r (a :: b :: t) = a :: collapseChar r (b :: t) from by
        simp [collapseChar]; intro h1 h2; exact absurd (by simp [h1, h2]) hab]
      rfl

theorem chain_collapseChar (r : Char) :
    ∀ l : List Char, (collapseChar r l).Chain' (fun a b => ¬(a = r ∧ b = r)) := by
  intro l
  induction l with
  | nil => simp [collapseChar]
  | cons a rest ih =>
    cases rest with
    | nil => simp [collapseChar]
    | cons b t =>
      by_cases hab : a = r && b = r
      · rw [show collapseChar r (a :: b :: t) = collapseChar r (b :: t) from by
          simp [collapseChar, hab]]
        exact ih
      · rw [show collapseChar r (a :: b :: t) = a :: collapseChar r (b :: t) from by
          simp [collapseChar]; intro h1 h2; exact absurd (by simp [h1, h2]) hab]
        rw [List.chain'_cons']
        refine ⟨?_, ih⟩
        intro y hy
        rw [collapseChar_head r t b] at hy
        have hyb : b = y := by simpa using hy
        subst hyb
        intro hcon
        exact hab (by simp [hcon.1, hcon.2])

theorem collapseChar_eq_of_chain (r : Char) :
    ∀ l : List Char, l.Chain' (fun a b => ¬(a = r ∧ b = r)) →
      collapseChar r l = l := by
  intro l
  induction l with
  | nil => intro _; rfl
  | cons a rest ih =>
    intro h
    cases rest with
    | nil => simp [collapseChar]
    | cons b t =>
      have hR : ¬(a = r ∧ b = r) := (List.chain'_cons.mp h).1
      have hab : ¬(a = r && b = r) = true := by
        simp only [Bool.and_eq_true, decide_eq_true_eq]
        exact hR
      rw [show collapseChar r (a :: b :: t) = a :: collapseChar r (b :: t) from by
        simp [collapseChar]; intro h1 h2; exact absurd (by simp [h1, h2]) hab]
      rw [ih (List.chain'_cons.mp h).2]

theorem collapseChar_collapseChar (r : Char) (l : List Char) :
    collapseChar r (collapseChar r l) = collapseChar r l :=
  collapseChar_eq_of_chain r (collapseChar r l) (chain_collapseChar r l)

theorem collapseChar_eq_of_not_mem (r : Char) :
    ∀ l : List Char, r ∉ l → collapseChar r l = l := by
  intro l
  induction l with
  | nil => intro _; rfl
  | cons a rest ih =>
    intro h
    cases rest with
    | nil => simp [collapseChar]
    | cons b t =>
      have ha : a ≠ r := fun hh => h (by simp [hh])
      have hab : (a = r && b = r) = false := by
        simp only [Bool.and_eq_false_iff]
        left
        simpa using fun hh => ha hh
      rw [show collapseChar r (a :: b :: t) = a :: collapseChar r (b :: t) from by
        simp [collapseChar, hab]]
      rw [ih (fun hm => h (List.mem_cons_of_mem a hm))]

theorem replaceDisallowed_mem_allowed (r : Char) (hr : isAllowedChar r = true) :
    ∀ l : List Char, ∀ c ∈ replaceDisallowed r l, isAllowedChar c = true := by
  intro l c hc
  rcases List.mem_map.mp hc with ⟨d, _, hd⟩
  by_cases h : isAllowedChar d
  · rw [if_pos h] at hd
    rw [← hd]
    exact h
  · rw [if_neg h] at hd
    rw [← hd]
    exact hr

theorem replaceDisallowed_eq_of_allowed (r : Char) :
    ∀ l : List Char, (∀ c ∈ l, isAllowedChar c = true) →
      replaceDisallowed r l = l := by
  intro l
  induction l with
  | nil => intro _; rfl
  | cons a t ih =>
    intro hl
    have ha : isAllowedChar a = true := hl a (by simp)
    have ht := ih (fun c hc => hl c (List.mem_cons_of_mem a hc))
    simp only [replaceDisallowed, List.map_cons, if_pos ha]
    simp only [replaceDisallowed] at ht
    rw [ht]

theorem removeSpecialChars_default_eq (text : String) :
    removeSpecialChars text '-' true =
      ⟨collapseChar '-' (replaceDisallowed '-' text.data)⟩ := rfl

/-- C5: the collapse-enabled sanitizer — `removeSpecialChars` at its default
arguments `replaceChar = '-'`, `collapseRepeat = true` — is idempotent:
applying it twice yields the same string as applying it once. -/
theorem removeSpecialChars_idempotent (x : String) :
    removeSpecialChars (removeSpecialChars x '-' true) '-' true =
      removeSpecialChars x '-' true := by
  rw [removeSpecialChars_default_eq x, removeSpecialChars_default_eq]
  have hy : ∀ c ∈ collapseChar '-' (replaceDisallowed '-' x.data),
      isAllowedChar c = true := by
    intro c hc
    exact replaceDisallowed_mem_allowed '-' (by decide) x.data c
      (mem_of_mem_collapseChar '-' _ c hc)
  have h1 : replaceDisallowed '-'
      (collapseChar '-' (replaceDisallowed '-' x.data)) =
        collapseChar '-' (replaceDisallowed '-' x.data) :=
    replaceDisallowed_eq_of_allowed '-' _ hy
  show (⟨collapseChar '-' (replaceDisallowed '-'
      (collapseChar '-' (replaceDisallowed '-' x.data)))⟩ : String) = _
  rw [h1, collapseChar_collapseChar]

theorem mem_replaceRunsAux :
    ∀ (l : List Char) (b : Bool), ∀ c ∈ replaceRunsAux b l,
      isAlnumChar c = true ∨ c = '-' := by
  intro l
  induction l with
  | nil => intro b c hc; simp [replaceRunsAux] at hc
  | cons a t ih =>
    intro b c hc
    by_cases ha : isAlnumChar a
    · rw [show replaceRunsAux b (a :: t) = a :: replaceRunsAux false t from by
        simp [replaceRunsAux, ha]] at hc
      rcases List.mem_cons.mp hc with h | h
      · left
        rw [h]
        exact ha
      · exact ih false c h
    · cases b with
      | true =>
        rw [show replaceRunsAux true (a :: t) = replaceRunsAux true t from by
          simp [replaceRunsAux, ha]] at hc
        exact ih true c hc
      | false =>
        rw [show replaceRunsAux false (a :: t) = '-' :: replaceRunsAux true t from by
          simp [replaceRunsAux, ha]] at hc
        rcases List.mem_cons.mp hc with h | h
        · right
          exact h
        · exact ih true c h

theorem underscore_not_mem_pass2 (l : List Char) :
    '_' ∉ collapseChar '-' (replaceRuns l) := by
  intro hmem
  have h1 := mem_of_mem_collapseChar '-' _ '_' hmem
  have h2 := mem_replaceRunsAux l false '_' h1
  rcases h2 with h | h
  · exact absurd h (by decide)
  · exact absurd h (by decide)

/-- C7 counterexample: the claim asserts the existence of an input on which
omitting the underscore-collapse pass changes the output of
`replaceSpecialCharacters`; no such input exists, because the first pass
already replaces every underscore (matched by `[\W_]`) with `-`. -/
theorem replaceSpecialCharacters_no_input_refutes :
    ¬ ∃ s : String,
        replaceSpecialCharacters s ≠ replaceSpecialCharsNoUnderscorePass s := by
  rintro ⟨s, hs⟩
  apply hs
  unfold replaceSpecialCharacters replaceSpecialCharsNoUnderscorePass
  by_cases h0 : s = ""
  · rw [if_pos h0, if_pos h0]
  · rw [if_neg h0, if_neg h0]
    rw [collapseChar_eq_of_not_mem '_' _ (underscore_not_mem_pass2 s.data)]

/-- C7 (amended): the underscore-collapse pass of
`replaceSpecialCharacters` is textually separate from the hyphen-collapse
pass, but it is inert: the first pass replaces every run of
non-alphanumeric characters — underscores included, since `[\W_]` contains
`_` — with `-`, so no underscore survives to the final pass and the output
equals that of the variant without the underscore pass on every input. -/
theorem replaceSpecialCharacters_underscore_pass_inert (s : String) :
    replaceSpecialCharacters s = replaceSpecialCharsNoUnderscorePass s := by
  unfold replaceSpecialCharacters replaceSpecialCharsNoUnderscorePass
  by_cases h0 : s = ""
  · rw [if_pos h0, if_pos h0]
  · rw [if_neg h0, if_neg h0]
    rw [collapseChar_eq_of_not_mem '_' _ (underscore_not_mem_pass2 s.data)]

/-- C1 counterexample: on the three rows with `(index, index2)` pairs
`(AAAA,TTTT)`, `(AAAA,TTTT)`, `(GGGG,CCCC)`, the key `TTTT-AAAA` claimed by
the specification is absent from the duplicate map of
`validateSampleSheet2k`, whose key is built as `index`, then `-`, then
`index2`. -/
theorem validateSampleSheet2k_key_counterexample :
    lookupS (validateSampleSheet2k
        "[BCLConvert_Data]\nSample_ID,index,index2\nsample1,AAAA,TTTT\nsample2,AAAA,TTTT\nsample3,GGGG,CCCC").duplicatedIndexes
      "TTTT-AAAA" = none := by
  decide

/-- C1 (amended): on those rows the duplicate map of
`validateSampleSheet2k` holds exactly one key, `AAAA-TTTT` — composed as
index value, then `-`, then index2 value — mapping to the ordered list
`[sample1, sample2]`; sample3's composite key is absent. -/
theorem validateSampleSheet2k_duplicate_detection :
    (validateSampleSheet2k
        "[BCLConvert_Data]\nSample_ID,index,index2\nsample1,AAAA,TTTT\nsample2,AAAA,TTTT\nsample3,GGGG,CCCC").duplicatedIndexes
      = [("AAAA-TTTT", ["sample1", "sample2"])] ∧
    lookupS (validateSampleSheet2k
        "[BCLConvert_Data]\nSample_ID,index,index2\nsample1,AAAA,TTTT\nsample2,AAAA,TTTT\nsample3,GGGG,CCCC").duplicatedIndexes
      "GGGG-CCCC" = none := by
  decide

/-- C2: reconciling the header row `Sample_Name,Foo,Bar` against the
required columns `[Sample_ID, Index2, Index, Sample_Project]` raises a
single error whose message lists all four missing required column names
together, in required-column order — batched reporting, not just the first
miss. -/
theorem reconcileSimple2k_missing_columns_batched :
    reconcileSimple2k ["Sample_Name,Foo,Bar"] =
        Except.error
          "Missing required columns: sample_id, index2, index, sample_project" ∧
      missingColumns2k ["Sample_Name", "Foo", "Bar"] =
        ["sample_id", "index2", "index", "sample_project"] :=
  ⟨by rfl, by decide⟩

theorem markerFound500_cons (l : String) (rest : List String) :
    markerFound500 (l :: rest) =
      (decide (cleanLine500 l = "[Data]") || markerFound500 rest) := by
  simp [markerFound500]

theorem dataLinesIn_cons (l : String) (rest : List String) :
    dataLinesIn (l :: rest) =
      if cleanLine500 l = "" then dataLinesIn rest
      else cleanLine500 l :: dataLinesIn rest := by
  by_cases h : cleanLine500 l = ""
  · simp [dataLinesIn, List.filter_cons, h]
  · simp [dataLinesIn, List.filter_cons, h]

theorem scan500_found :
    ∀ (ls : List String) (ds : Bool) (hs dls : List String),
      (scan500 ls ds hs dls).1 = (ds || markerFound500 ls) := by
  intro ls
  induction ls with
  | nil => intro ds hs dls; simp [scan500, markerFound500]
  | cons l rest ih =>
    intro ds hs dls
    by_cases hm : cleanLine500 l = "[Data]"
    · rw [show scan500 (l :: rest) ds hs dls = scan500 rest true hs [] from by
        simp [scan500, hm]]
      rw [ih true hs [], markerFound500_cons]
      simp [hm]
    · by_cases hds : ds = true
      · by_cases hne : cleanLine500 l = ""
        · rw [show scan500 (l :: rest) ds hs dls = scan500 rest ds hs dls from by
            simp [scan500, hm, hds, hne]]
          rw [ih, markerFound500_cons]
          simp [hm]
        · rw [show scan500 (l :: rest) ds hs dls =
              scan500 rest ds hs (dls ++ [cleanLine500 l]) from by
            simp [scan500, hm, hds, hne]]
          rw [ih, markerFound500_cons]
          simp [hm]
      · have hds0 : ds = false := by simpa using hds
        subst hds0
        rw [show scan500 (l :: rest) false hs dls =
            scan500 rest false (hs ++ [l]) dls from by
          simp [scan500, hm]]
        rw [ih, markerFound500_cons]
        simp [hm]

theorem scan500_data :
    ∀ (ls : List String) (ds : Bool) (hs dls : List String),
      (scan500 ls ds hs dls).2.2 =
        if markerFound500 ls = true then dataLinesIn (afterLastMarker500 ls)
        else if ds = true then dls ++ dataLinesIn ls else dls := by
  intro ls
  induction ls with
  | nil =>
    intro ds hs dls
    cases ds <;> simp [scan500, markerFound500, dataLinesIn]
  | cons l rest ih =>
    intro ds hs dls
    by_cases hm : cleanLine500 l = "[Data]"
    · rw [show scan500 (l :: rest) ds hs dls = scan500 rest true hs [] from by
        simp [scan500, hm]]
      rw [ih true hs []]
      have hmf : markerFound500 (l :: rest) = true := by
        rw [markerFound500_cons]; simp [hm]
      rw [if_pos hmf]
      by_cases hr : markerFound500 rest = true
      · rw [if_pos hr]
        rw [show afterLastMarker500 (l :: rest) = afterLastMarker500 rest from by
          simp [afterLastMarker500, hr]]
      · rw [if_neg hr, if_pos rfl]
        have hr0 : markerFound500 rest = false := by simpa using hr
        rw [show afterLastMarker500 (l :: rest) = rest from by
          simp [afterLastMarker500, hr0, hm]]
        simp
    · have hstep : markerFound500 (l :: rest) = markerFound500 rest := by
        rw [markerFound500_cons]
        simp [hm]
      have hafter : markerFound500 rest = false →
          afterLastMarker500 (l :: rest) = afterLastMarker500 rest := by
        intro hr0
        simp [afterLastMarker500, hr0, hm]
      have hafterT : markerFound500 rest = true →
          afterLastMarker500 (l :: rest) = afterLastMarker500 rest := by
        intro hr0
        simp [afterLastMarker500, hr0]
      by_cases hds : ds = true
      · subst hds
        by_cases hne : cleanLine500 l = ""
        · rw [show scan500 (l :: rest) true hs dls = scan500 rest true hs dls from by
            simp [scan500, hm, hne]]
          rw [ih, hstep]
          by_cases hr : markerFound500 rest = true
          · rw [if_pos hr, if_pos hr, hafterT hr]
          · have hr0 : markerFound500 rest = false := by simpa using hr
            rw [if_neg hr, if_neg hr]
            simp only [if_pos rfl]
            rw [dataLinesIn_cons, if_pos hne]
        · rw [show scan500 (l :: rest) true hs dls =
              scan500 rest true hs (dls ++ [cleanLine500 l]) from by
            simp [scan500, hm, hne]]
          rw [ih, hstep]
          by_cases hr : markerFound500 rest = true
          · rw [if_pos hr, if_pos hr, hafterT hr]
          · rw [if_neg hr, if_neg hr]
            simp only [if_pos rfl]
            rw [dataLinesIn_cons, if_neg hne, List.append_assoc]
            rfl
      · have hds0 : ds = false := by simpa using hds
        subst hds0
        rw [show scan500 (l :: rest) false hs dls =
            scan500 rest false (hs ++ [l]) dls from by
          simp [scan500, hm]]
        rw [ih, hstep]
        by_cases hr : markerFound500 rest = true
        · rw [if_pos hr, if_pos hr, hafterT hr]
        · rw [if_neg hr, if_neg hr]
          simp

/-- C3 counterexample: the input `[Data]\nSample_ID,index` has the marker
and exactly one non-empty line after it, yet the parser raises the
empty-data-section error, because it requires at least two collected lines
(the column header row plus one sample row). -/
theorem parse500_one_follower_counterexample :
    markerFound500 (linesOf500 "[Data]\nSample_ID,index") = true ∧
    dataLinesIn (afterLastMarker500 (linesOf500 "[Data]\nSample_ID,index")) =
      ["Sample_ID,index"] ∧
    parseIlluminaSampleSheet "[Data]\nSample_ID,index" =
      Except.error ParseError.emptyDataSection :=
  ⟨by decide, by decide, by rfl⟩

/-- C3 (amended): in full-structure mode the NextSeq-500 parser raises the
empty-data-section error exactly when the `[Data]` marker is found and
fewer than two cleaned non-empty lines follow the last marker; with the
marker and at least two such lines the error is never raised. -/
theorem parse500_emptyDataSection_iff (content : String) :
    parseIlluminaSampleSheet content = Except.error ParseError.emptyDataSection ↔
      (markerFound500 (linesOf500 content) = true ∧
        (dataLinesIn (afterLastMarker500 (linesOf500 content))).length < 2) := by
  have h1 := scan500_found (linesOf500 content) false [] []
  have h2 := scan500_data (linesOf500 content) false [] []
  rw [Bool.false_or] at h1
  by_cases hm : markerFound500 (linesOf500 content) = true
  · rw [hm] at h1
    rw [if_pos hm] at h2
    by_cases hl : (dataLinesIn (afterLastMarker500 (linesOf500 content))).length < 2
    · simp only [parseIlluminaSampleSheet, h1, h2]
      simp [hm, hl]
    · simp only [parseIlluminaSampleSheet, h1, h2]
      simp [hm, hl]
  · have hm0 : markerFound500 (linesOf500 content) = false := by simpa using hm
    rw [hm0] at h1
    simp only [parseIlluminaSampleSheet, h1]
    simp [hm0]

theorem scan2k_header_stable :
    ∀ (ls : List String) (hs dls : List String),
      (∀ l ∈ ls, jsTrim l ≠ "[BCLConvert_Data]") →
        (scan2k ls true hs dls).1 = hs := by
  intro ls
  induction ls with
  | nil => intro hs dls _; simp [scan2k]
  | cons l rest ih =>
    intro hs dls h
    have hm : jsTrim l ≠ "[BCLConvert_Data]" := h l (by simp)
    have hrest : ∀ x ∈ rest, jsTrim x ≠ "[BCLConvert_Data]" :=
      fun x hx => h x (List.mem_cons_of_mem l hx)
    by_cases hne : jsTrim l = ""
    · rw [show scan2k (l :: rest) true hs dls = scan2k rest true hs dls from by
        simp [scan2k, hm, hne]]
      exact ih hs dls hrest
    · rw [show scan2k (l :: rest) true hs dls =
          scan2k rest true hs (dls ++ [l]) from by
        simp [scan2k, hm, hne]]
      exact ih hs (dls ++ [l]) hrest

theorem scan2k_marker_last :
    ∀ (ls : List String) (ds : Bool) (hs dls : List String),
      ls.any (fun l => jsTrim l = "[BCLConvert_Data]") = true →
        ((scan2k ls ds hs dls).1.getLast?).map jsTrim =
          some "[BCLConvert_Data]" := by
  intro ls
  induction ls with
  | nil => intro ds hs dls h; simp at h
  | cons l rest ih =>
    intro ds hs dls h
    by_cases hm : jsTrim l = "[BCLConvert_Data]"
    · rw [show scan2k (l :: rest) ds hs dls =
          scan2k rest true (hs ++ [l]) dls from by
        simp [scan2k, hm]]
      by_cases hr : rest.any (fun x => jsTrim x = "[BCLConvert_Data]") = true
      · exact ih true (hs ++ [l]) dls hr
      · have hnone : ∀ x ∈ rest, jsTrim x ≠ "[BCLConvert_Data]" := by
          intro x hx
          intro hxeq
          exact hr (List.any_eq_true.mpr ⟨x, hx, by simp [hxeq]⟩)
        rw [scan2k_header_stable rest (hs ++ [l]) dls hnone]
        rw [List.getLast?_concat]
        simp [hm]
    · have hr : rest.any (fun x => jsTrim x = "[BCLConvert_Data]") = true := by
        rcases List.any_eq_true.mp h with ⟨x, hx, hxeq⟩
        rcases List.mem_cons.mp hx with hxl | hxrest
        · subst hxl
          exact absurd (by simpa using hxeq) hm
        · exact List.any_eq_true.mpr ⟨x, hxrest, hxeq⟩
      by_cases hds : ds = true
      · subst hds
        by_cases hne : jsTrim l = ""
        · rw [show scan2k (l :: rest) true hs dls = scan2k rest true hs dls from by
            simp [scan2k, hm, hne]]
          exact ih true hs dls hr
        · rw [show scan2k (l :: rest) true hs dls =
              scan2k rest true hs (dls ++ [l]) from by
            simp [scan2k, hm, hne]]
          exact ih true hs (dls ++ [l]) hr
      · have hds0 : ds = false := by simpa using hds
        subst hds0
        rw [show scan2k (l :: rest) false hs dls =
            scan2k rest false (hs ++ [l]) dls from by
          simp [scan2k, hm]]
        exact ih false (hs ++ [l]) dls hr

/-- C6 counterexample: the NextSeq-500 parser variant does not keep the
`[Data]` marker line in the returned header section — on an input whose
lines are `RunName,X`, `[Data]`, `Sample_ID`, `S1,AAAA`, the header section
is exactly `[RunName,X]`, whose last line is not the marker. -/
theorem parse500_marker_excluded_counterexample :
    markerFound500 (linesOf500 "RunName,X\n[Data]\nSample_ID\nS1,AAAA") = true ∧
    parseIlluminaSampleSheet "RunName,X\n[Data]\nSample_ID\nS1,AAAA" =
      Except.ok (["RunName,X"], ["Sample_ID", "S1,AAAA"]) ∧
    ((["RunName,X"].getLast?).map jsTrim ≠ some "[Data]") :=
  ⟨by decide, by rfl, by decide⟩

/-- C6 (amended): the NextSeq-2000 full-structure scan keeps the
`[BCLConvert_Data]` marker line as the last line of the returned header
section whenever the marker occurs among the input lines; the NextSeq-500
variant instead excludes its `[Data]` marker from the header section and
re-inserts it only at serialization time. -/
theorem processFullStructure2k_marker_last (lines : List String)
    (h : lines.any (fun l => jsTrim l = "[BCLConvert_Data]") = true) :
    (((processFullStructure2k lines).1).getLast?).map jsTrim =
      some "[BCLConvert_Data]" :=
  scan2k_marker_last lines false [] [] h

/-- Concrete instantiation of `processFullStructure2k_marker_last` at an
input containing the marker line. -/
theorem processFullStructure2k_marker_last_witness :
    (["[Header],,,", "[BCLConvert_Data]", "S1,TTTT,AAAA,P"].any
        (fun l => jsTrim l = "[BCLConvert_Data]") = true) ∧
    ((((processFullStructure2k
        ["[Header],,,", "[BCLConvert_Data]", "S1,TTTT,AAAA,P"]).1).getLast?).map
      jsTrim = some "[BCLConvert_Data]") :=
  ⟨by decide,
   processFullStructure2k_marker_last
     ["[Header],,,", "[BCLConvert_Data]", "S1,TTTT,AAAA,P"] (by decide)⟩

theorem joinOpt_nil (o : Option String) : joinOpt o [] = o := by
  cases o <;> rfl

theorem joinOpt_some (x : String) (ids : List String) :
    joinOpt (some x) ids = some (joinComma (x :: ids)) := rfl

theorem joinOpt_fresh (c : String) (ids : List String) :
    joinOpt (some c) ids = joinOpt none (c :: ids) := rfl

theorem joinComma_merge (v c : String) (t : List String) :
    joinComma ((v ++ "," ++ c) :: t) = joinComma (v :: c :: t) := by
  cases t with
  | nil => rfl
  | cons d t2 =>
    show v ++ "," ++ c ++ "," ++ joinComma (d :: t2) =
      v ++ "," ++ (c ++ "," ++ joinComma (d :: t2))
    simp [String.append_assoc]

theorem joinOpt_dup_step (v c : String) (ids : List String) :
    joinOpt (some (v ++ "," ++ c)) ids = joinOpt (some v) (c :: ids) := by
  rw [joinOpt_some, joinOpt_some, joinComma_merge]

theorem lookupS_none_iff {α : Type} :
    ∀ (m : List (String × α)) (k : String),
      lookupS m k = none ↔ k ∉ m.map Prod.fst := by
  intro m k
  induction m with
  | nil => simp [lookupS]
  | cons p rest ih =>
    obtain ⟨q, v⟩ := p
    by_cases h : q = k
    · subst h
      simp [lookupS]
    · simp only [lookupS, if_neg h, List.map_cons, List.mem_cons]
      rw [ih]
      constructor
      · intro hn hc
        rcases hc with hc | hc
        · exact h hc.symm
        · exact hn hc
      · intro hn hc
        exact hn (Or.inr hc)

theorem lookupS_setEntryS_self {α : Type} :
    ∀ (m : List (String × α)) (k : String) (v : α),
      lookupS (setEntryS m k v) k = some v := by
  intro m k v
  induction m with
  | nil => simp [setEntryS, lookupS]
  | cons p rest ih =>
    obtain ⟨q, w⟩ := p
    by_cases h : q = k
    · simp [setEntryS, h, lookupS]
    · simp [setEntryS, h, lookupS, ih]

theorem lookupS_setEntryS_ne {α : Type} :
    ∀ (m : List (String × α)) (k k2 : String) (v : α), k2 ≠ k →
      lookupS (setEntryS m k v) k2 = lookupS m k2 := by
  intro m k k2 v hne
  induction m with
  | nil =>
    have : k ≠ k2 := fun h => hne h.symm
    simp [setEntryS, lookupS, this]
  | cons p rest ih =>
    obtain ⟨q, w⟩ := p
    by_cases h : q = k
    · subst h
      have h2 : ¬(q = k2) := fun hh => hne hh.symm
      simp [setEntryS, lookupS, h2]
    · by_cases hq2 : q = k2
      · subst hq2
        simp [setEntryS, h, lookupS]
      · simp [setEntryS, h, lookupS, hq2, ih]

theorem keys_setEntryS_mem {α : Type} :
    ∀ (m : List (String × α)) (k : String) (v : α),
      k ∈ m.map Prod.fst →
        (setEntryS m k v).map Prod.fst = m.map Prod.fst := by
  intro m k v hmem
  induction m with
  | nil => simp at hmem
  | cons p rest ih =>
    obtain ⟨q, w⟩ := p
    by_cases h : q = k
    · subst h
      simp [setEntryS]
    · have hrest : k ∈ rest.map Prod.fst := by
        rcases List.mem_cons.mp hmem with hc | hc
        · exact absurd hc.symm h
        · exact hc
      simp [setEntryS, h, ih hrest]

theorem keys_setEntryS_not_mem {α : Type} :
    ∀ (m : List (String × α)) (k : String) (v : α),
      k ∉ m.map Prod.fst →
        (setEntryS m k v).map Prod.fst = m.map Prod.fst ++ [k] := by
  intro m k v hmem
  induction m with
  | nil => simp [setEntryS]
  | cons p rest ih =>
    obtain ⟨q, w⟩ := p
    have h : q ≠ k := by
      intro hh
      exact hmem (by simp [hh])
    have hrest : k ∉ rest.map Prod.fst := by
      intro hh
      exact hmem (by simp [hh])
    simp [setEntryS, h, ih hrest]

theorem dataRowsOf_cons_blank (l : String) (rest : List String)
    (h : jsTrim l = "") : dataRowsOf (l :: rest) = dataRowsOf rest := by
  simp [dataRowsOf, List.filter_cons, h]

theorem dataRowsOf_cons_row (l : String) (rest : List String)
    (h : jsTrim l ≠ "") :
    dataRowsOf (l :: rest) =
      ((jsSplit ',' l).map jsTrim) :: dataRowsOf rest := by
  simp [dataRowsOf, List.filter_cons, h]

theorem cleanIdsWithKey_cons_eq (k : String) (row : List String)
    (rows : List (List String)) (h : rowKey row = k) :
    cleanIdsWithKey k (row :: rows) =
      removeSpecialChars (row.getD 0 "") '-' true :: cleanIdsWithKey k rows := by
  simp [cleanIdsWithKey, List.filter_cons, h]

theorem cleanIdsWithKey_cons_ne (k : String) (row : List String)
    (rows : List (List String)) (h : rowKey row ≠ k) :
    cleanIdsWithKey k (row :: rows) = cleanIdsWithKey k rows := by
  simp [cleanIdsWithKey, List.filter_cons, h]

theorem vssLine_blank (st : VSState) (l : String) (h : jsTrim l = "") :
    vssLine st l = .ok st := by
  simp [vssLine, h]

theorem vssLine_data_dup (st : VSState) (l : String) (v : String)
    (hF : st.foundHeader = true) (hb : jsTrim l ≠ "")
    (hlen : 7 ≤ ((jsSplit ',' l).map jsTrim).length)
    (hlook : lookupS st.dup (rowKey ((jsSplit ',' l).map jsTrim)) = some v) :
    vssLine st l = .ok { st with
      dup := setEntryS st.dup (rowKey ((jsSplit ',' l).map jsTrim))
        (v ++ "," ++
          removeSpecialChars (((jsSplit ',' l).map jsTrim).getD 0 "") '-' true) } := by
  have hlook2 : lookupS st.dup
      (((jsSplit ',' l).map jsTrim).getD 3 "" ++ "+" ++
        ((jsSplit ',' l).map jsTrim).getD 5 "") = some v := hlook
  have hnl : ¬(((jsSplit ',' l).map jsTrim).length < 7) := Nat.not_lt.mpr hlen
  simp at hlook2
  rw [List.length_map] at hnl
  simp [vssLine, hb, hF, hnl, hlook2, rowKey]

theorem vssLine_data_fresh (st : VSState) (l : String)
    (hF : st.foundHeader = true) (hb : jsTrim l ≠ "")
    (hlen : 7 ≤ ((jsSplit ',' l).map jsTrim).length)
    (hlook : lookupS st.dup (rowKey ((jsSplit ',' l).map jsTrim)) = none) :
    vssLine st l = .ok { st with
      samples := st.samples ++ [renderSample ((jsSplit ',' l).map jsTrim)],
      dup := setEntryS st.dup (rowKey ((jsSplit ',' l).map jsTrim))
        (removeSpecialChars (((jsSplit ',' l).map jsTrim).getD 0 "") '-' true) } := by
  have hlook2 : lookupS st.dup
      (((jsSplit ',' l).map jsTrim).getD 3 "" ++ "+" ++
        ((jsSplit ',' l).map jsTrim).getD 5 "") = none := hlook
  have hnl : ¬(((jsSplit ',' l).map jsTrim).length < 7) := Nat.not_lt.mpr hlen
  simp at hlook2
  rw [List.length_map] at hnl
  simp [vssLine, hb, hF, hnl, hlook2, rowKey]

theorem specFirstOccurrences_cons_seen (seen : List String)
    (row : List String) (rows : List (List String)) (h : rowKey row ∈ seen) :
    specFirstOccurrences seen (row :: rows) = specFirstOccurrences seen rows := by
  simp [specFirstOccurrences, h]

theorem specFirstOccurrences_cons_new (seen : List String)
    (row : List String) (rows : List (List String)) (h : rowKey row ∉ seen) :
    specFirstOccurrences seen (row :: rows) =
      row :: specFirstOccurrences (seen ++ [rowKey row]) rows := by
  simp [specFirstOccurrences, h]

/-- C10: in the NextSeq-500 validator loop, once the header has been found,
only the first data row of each composite `index+index2` key contributes a
line to the `samples` output — the samples are exactly the rendered
first-occurrence rows — while every subsequent row with an already-seen key
is appended (as its sanitized sample id) to that key's entry of the
duplicate record and omitted from the samples entirely. -/
theorem vssLoop_first_occurrence_only :
    ∀ (ls : List String) (st : VSState) (k : String),
      st.foundHeader = true → rowsWellFormed ls = true →
      (vssLoop ls st).map (fun st2 => (st2.samples, lookupS st2.dup k)) =
        Except.ok
          (st.samples ++
            (specFirstOccurrences (st.dup.map Prod.fst) (dataRowsOf ls)).map
              renderSample,
           joinOpt (lookupS st.dup k) (cleanIdsWithKey k (dataRowsOf ls))) := by
  intro ls
  induction ls with
  | nil =>
    intro st k hF hW
    simp [vssLoop, dataRowsOf, specFirstOccurrences, cleanIdsWithKey,
      joinOpt_nil, Except.map]
  | cons l rest ih =>
    intro st k hF hW
    unfold rowsWellFormed at hW
    rw [List.all_cons, Bool.and_eq_true] at hW
    obtain ⟨hWl0, hWrest0⟩ := hW
    have hWrest : rowsWellFormed rest = true := hWrest0
    by_cases hb : jsTrim l = ""
    · rw [show vssLoop (l :: rest) st = vssLoop rest st from by
        simp [vssLoop, vssLine_blank st l hb]]
      rw [dataRowsOf_cons_blank l rest hb]
      exact ih st k hF hWrest
    · have hlen : 7 ≤ ((jsSplit ',' l).map jsTrim).length := by
        have hWl : jsTrim l = "" ∨ 7 ≤ ((jsSplit ',' l).map jsTrim).length := by
          simpa using hWl0
        rcases hWl with h0 | h1
        · exact absurd h0 hb
        · exact h1
      rw [dataRowsOf_cons_row l rest hb]
      cases hcase : lookupS st.dup (rowKey ((jsSplit ',' l).map jsTrim)) with
      | some v =>
        have hmem : rowKey ((jsSplit ',' l).map jsTrim) ∈ st.dup.map Prod.fst := by
          by_contra hnm
          rw [(lookupS_none_iff st.dup _).mpr hnm] at hcase
          exact absurd hcase (by simp)
        have hstep := vssLine_data_dup st l v hF hb hlen hcase
        rw [show vssLoop (l :: rest) st =
            vssLoop rest { st with
              dup := setEntryS st.dup (rowKey ((jsSplit ',' l).map jsTrim))
                (v ++ "," ++
                  removeSpecialChars (((jsSplit ',' l).map jsTrim).getD 0 "")
                    '-' true) } from by
          simp [vssLoop, hstep]]
        have hih := ih (VSState.mk st.samples
          (setEntryS st.dup (rowKey ((jsSplit ',' l).map jsTrim))
            (v ++ "," ++
              removeSpecialChars (((jsSplit ',' l).map jsTrim).getD 0 "")
                '-' true))
          st.foundHeader) k hF hWrest
        rw [hih]
        have hkeys : (setEntryS st.dup (rowKey ((jsSplit ',' l).map jsTrim))
            (v ++ "," ++
              removeSpecialChars (((jsSplit ',' l).map jsTrim).getD 0 "")
                '-' true)).map Prod.fst = st.dup.map Prod.fst :=
          keys_setEntryS_mem st.dup _ _ hmem
        have hA : (specFirstOccurrences
            ((setEntryS st.dup (rowKey ((jsSplit ',' l).map jsTrim))
              (v ++ "," ++
                removeSpecialChars (((jsSplit ',' l).map jsTrim).getD 0 "")
                  '-' true)).map Prod.fst) (dataRowsOf rest)) =
            specFirstOccurrences (st.dup.map Prod.fst)
              (((jsSplit ',' l).map jsTrim) :: dataRowsOf rest) := by
          rw [hkeys, specFirstOccurrences_cons_seen _ _ _ hmem]
        rw [hA]
        by_cases hk : rowKey ((jsSplit ',' l).map jsTrim) = k
        · have hB : lookupS (setEntryS st.dup
              (rowKey ((jsSplit ',' l).map jsTrim))
              (v ++ "," ++
                removeSpecialChars (((jsSplit ',' l).map jsTrim).getD 0 "")
                  '-' true)) k =
              some (v ++ "," ++
                removeSpecialChars (((jsSplit ',' l).map jsTrim).getD 0 "")
                  '-' true) := by
            rw [← hk]
            exact lookupS_setEntryS_self st.dup _ _
          rw [hB, ← hk, hcase]
          rw [cleanIdsWithKey_cons_eq _ _ _ rfl]
          rw [joinOpt_dup_step]
        · have hB : lookupS (setEntryS st.dup
              (rowKey ((jsSplit ',' l).map jsTrim))
              (v ++ "," ++
                removeSpecialChars (((jsSplit ',' l).map jsTrim).getD 0 "")
                  '-' true)) k = lookupS st.dup k :=
            lookupS_setEntryS_ne st.dup _ k _ (fun h => hk h.symm)
          rw [hB, cleanIdsWithKey_cons_ne _ _ _ hk]
      | none =>
        have hnm : rowKey ((jsSplit ',' l).map jsTrim) ∉ st.dup.map Prod.fst :=
          (lookupS_none_iff st.dup _).mp hcase
        have hstep := vssLine_data_fresh st l hF hb hlen hcase
        rw [show vssLoop (l :: rest) st =
            vssLoop rest { st with
              samples := st.samples ++ [renderSample ((jsSplit ',' l).map jsTrim)],
              dup := setEntryS st.dup (rowKey ((jsSplit ',' l).map jsTrim))
                (removeSpecialChars (((jsSplit ',' l).map jsTrim).getD 0 "")
                  '-' true) } from by
          simp [vssLoop, hstep]]
        have hih := ih (VSState.mk
          (st.samples ++ [renderSample ((jsSplit ',' l).map jsTrim)])
          (setEntryS st.dup (rowKey ((jsSplit ',' l).map jsTrim))
            (removeSpecialChars (((jsSplit ',' l).map jsTrim).getD 0 "")
              '-' true))
          st.foundHeader) k hF hWrest
        rw [hih]
        have hkeys : (setEntryS st.dup (rowKey ((jsSplit ',' l).map jsTrim))
            (removeSpecialChars (((jsSplit ',' l).map jsTrim).getD 0 "")
              '-' true)).map Prod.fst =
            st.dup.map Prod.fst ++ [rowKey ((jsSplit ',' l).map jsTrim)] :=
          keys_setEntryS_not_mem st.dup _ _ hnm
        have hA : st.samples ++ [renderSample ((jsSplit ',' l).map jsTrim)] ++
            (specFirstOccurrences
              ((setEntryS st.dup (rowKey ((jsSplit ',' l).map jsTrim))
                (removeSpecialChars (((jsSplit ',' l).map jsTrim).getD 0 "")
                  '-' true)).map Prod.fst) (dataRowsOf rest)).map renderSample =
            st.samples ++
              (specFirstOccurrences (st.dup.map Prod.fst)
                (((jsSplit ',' l).map jsTrim) :: dataRowsOf rest)).map
                renderSample := by
          rw [hkeys, specFirstOccurrences_cons_new _ _ _ hnm]
          rw [List.map_cons, List.append_assoc]
          rfl
        rw [hA]
        by_cases hk : rowKey ((jsSplit ',' l).map jsTrim) = k
        · have hB : lookupS (setEntryS st.dup
              (rowKey ((jsSplit ',' l).map jsTrim))
              (removeSpecialChars (((jsSplit ',' l).map jsTrim).getD 0 "")
                '-' true)) k =
              some (removeSpecialChars (((jsSplit ',' l).map jsTrim).getD 0 "")
                '-' true) := by
            rw [← hk]
            exact lookupS_setEntryS_self st.dup _ _
          rw [hB, ← hk, hcase]
          rw [cleanIdsWithKey_cons_eq _ _ _ rfl]
          rw [joinOpt_fresh]
        · have hB : lookupS (setEntryS st.dup
              (rowKey ((jsSplit ',' l).map jsTrim))
              (removeSpecialChars (((jsSplit ',' l).map jsTrim).getD 0 "")
                '-' true)) k = lookupS st.dup k :=
            lookupS_setEntryS_ne st.dup _ k _ (fun h => hk h.symm)
          rw [hB, cleanIdsWithKey_cons_ne _ _ _ hk]

/-- Concrete instantiation of `vssLoop_first_occurrence_only`: two
well-formed data rows sharing the composite key `AAAA+TTTT`, processed from
the post-header state. -/
theorem vssLoop_first_occurrence_only_witness :
    rowsWellFormed ["s1,,N9,AAAA,S9,TTTT,P1", "s2,,N9,AAAA,S9,TTTT,P1"] = true ∧
    (vssLoop ["s1,,N9,AAAA,S9,TTTT,P1", "s2,,N9,AAAA,S9,TTTT,P1"]
        (VSState.mk [] [] true)).map
      (fun st2 => (st2.samples, lookupS st2.dup "AAAA+TTTT")) =
      Except.ok
        ((VSState.mk [] [] true).samples ++
          (specFirstOccurrences
            ((VSState.mk [] [] true).dup.map Prod.fst)
            (dataRowsOf ["s1,,N9,AAAA,S9,TTTT,P1", "s2,,N9,AAAA,S9,TTTT,P1"])).map
            renderSample,
         joinOpt (lookupS (VSState.mk [] [] true).dup "AAAA+TTTT")
           (cleanIdsWithKey "AAAA+TTTT"
             (dataRowsOf ["s1,,N9,AAAA,S9,TTTT,P1", "s2,,N9,AAAA,S9,TTTT,P1"]))) :=
  ⟨by decide,
   vssLoop_first_occurrence_only
     ["s1,,N9,AAAA,S9,TTTT,P1", "s2,,N9,AAAA,S9,TTTT,P1"]
     (VSState.mk [] [] true) "AAAA+TTTT" rfl (by decide)⟩
